import Mathlib

/-!
Verification development for the bank-reconciliation application.

The repository's `src/app.py` is a thin Streamlit front-end: it parses an
uploaded workbook into two tables (EDW and Journal), sends them to an external
text-generation service together with a prompt describing the reconciliation
rules, parses the returned CSV and writes a three-sheet output workbook.
The deterministic matching engine itself (Key Grouper, Subset-Sum Matcher,
Tie-Break Resolver, Row Emitter, Reconciliation Driver) is described by the
specification but is not present in the source; it is modelled here from the
specification's words.  The secret-handling and workbook-writing logic, which
is present in `src/app.py`, is embedded directly from the source.
-/

/-- Modelled from the spec (§3): a raw transaction record from the EDW sheet.
Amounts are signed integers in minor currency units. -/
structure RawTransaction where
  id : String
  account : Int
  code : String
  date : String
  amount : Int
  refCode : String
  description : String
deriving DecidableEq

/-- Modelled from the spec (§3): a ledger debit entry from the Journal sheet. -/
structure LedgerEntry where
  account : Int
  code : String
  date : String
  debitAmount : Int
  description : String
  glCode : String
deriving DecidableEq

/-- Modelled from the spec (§4.1 Key Grouper): all raw transactions whose
account number and transaction code equal the entry's and whose process date
equals the entry's journal date; exact equality, pure filter. -/
def keyGrouper (txns : List RawTransaction) (e : LedgerEntry) : List RawTransaction :=
  txns.filter (fun t => t.account == e.account && t.code == e.code && t.date == e.date)

/-- All subsets of a list, each kept in the list's original order. -/
def allSubsets : List RawTransaction → List (List RawTransaction)
  | [] => [[]]
  | t :: ts => (allSubsets ts).map (fun s => t :: s) ++ allSubsets ts

/-- Sum of the absolute values of the amounts of a list of transactions,
in integer minor currency units. -/
def absSum (s : List RawTransaction) : Int :=
  (s.map (fun t => (t.amount.natAbs : Int))).sum

/-- Modelled from the spec (§4.2 Subset-Sum Matcher): all non-empty subsets of
the candidate group whose absolute amounts sum exactly to the target. -/
def subsetSumMatcher (group : List RawTransaction) (target : Int) :
    List (List RawTransaction) :=
  (allSubsets group).filter (fun s => !s.isEmpty && absSum s == target)

/-- The ordered sequence of transaction identifiers of a subset. -/
def idSeq (s : List RawTransaction) : List String := s.map (fun t => t.id)

/-- Strict lexicographic order on sequences of identifiers. -/
def lexLt : List String → List String → Bool
  | _, [] => false
  | [], _ :: _ => true
  | a :: as, b :: bs => decide (a < b) || (a == b && lexLt as bs)

/-- Modelled from the spec (§4.3): the strict tie-break preference — fewer
transactions first, then lexicographically smaller identifier sequence. -/
def better (a b : List RawTransaction) : Bool :=
  decide (a.length < b.length) ||
    (a.length == b.length && lexLt (idSeq a) (idSeq b))

/-- Fold that keeps the most preferred cover seen so far. -/
def pickBest (c : List RawTransaction) (cs : List (List RawTransaction)) :
    List RawTransaction :=
  cs.foldl (fun best x => if better x best then x else best) c

/-- Modelled from the spec (§4.3 Tie-Break Resolver): select exactly one cover,
or signal Unmatched (`none`) when there are none. -/
def tieBreakResolver : List (List RawTransaction) → Option (List RawTransaction)
  | [] => none
  | c :: cs => some (pickBest c cs)

/-- Modelled from the spec (§3): the outcome for one ledger entry. -/
inductive MatchResult where
  | matched (entry : LedgerEntry) (chosen : List RawTransaction)
  | unmatched (entry : LedgerEntry) (candidatesConsidered : Nat)
deriving DecidableEq

/-- Modelled from the spec (§3): the fixed 17-field output schema. -/
structure OutputRow where
  no : Nat
  itemType : String
  reconciliation : String
  side : String
  valueDate : String
  ref1 : String
  amount : Int
  amtCcy : String
  busEntity : String
  stmtDate : String
  rule : String
  entryDate : String
  ref2 : String
  ref3 : String
  ref4 : String
  tranCode : String
  status : String
deriving DecidableEq

/-- Modelled from the spec (§4.4): the CR row of a matched ledger entry —
positive amount equal to the debit amount, Ref 3 = description,
Ref 4 = GL code, rule label "AutoRule" plus the transaction code. -/
def crRowMatched (seq : Nat) (e : LedgerEntry) : OutputRow :=
  { no := seq, itemType := "Bank Rec", reconciliation := "Recon", side := "CR",
    valueDate := e.date, ref1 := "", amount := e.debitAmount, amtCcy := "INR",
    busEntity := "India_BU", stmtDate := e.date, rule := "AutoRule " ++ e.code,
    entryDate := e.date, ref2 := "", ref3 := e.description, ref4 := e.glCode,
    tranCode := e.code, status := "Matched" }

/-- Modelled from the spec (§4.4): one DR row per chosen transaction — the
original signed amount from the source record, Ref 1 = transaction identifier,
Ref 2 = reference code, Ref 3 = transaction description. -/
def drRow (seq : Nat) (e : LedgerEntry) (t : RawTransaction) : OutputRow :=
  { no := seq, itemType := "Bank Rec", reconciliation := "Recon", side := "DR",
    valueDate := t.date, ref1 := t.id, amount := t.amount, amtCcy := "INR",
    busEntity := "India_BU", stmtDate := t.date, rule := "AutoRule " ++ e.code,
    entryDate := t.date, ref2 := t.refCode, ref3 := t.description, ref4 := "",
    tranCode := t.code, status := "Matched" }

/-- Modelled from the spec (§4.4): the single CR row of an unmatched entry. -/
def crRowUnmatched (seq : Nat) (e : LedgerEntry) : OutputRow :=
  { no := seq, itemType := "Bank Rec", reconciliation := "Recon", side := "CR",
    valueDate := e.date, ref1 := "", amount := e.debitAmount, amtCcy := "INR",
    busEntity := "India_BU", stmtDate := e.date, rule := "AutoRule " ++ e.code,
    entryDate := e.date, ref2 := "", ref3 := e.description, ref4 := e.glCode,
    tranCode := e.code, status := "Unmatched" }

/-- Modelled from the spec (§4.4 Row Emitter, Matched case): one CR row then
one DR row per chosen transaction, with consecutive sequence numbers; returns
the rows and the next free sequence number. -/
def emitMatched (seq : Nat) (e : LedgerEntry) (chosen : List RawTransaction) :
    List OutputRow × Nat :=
  (crRowMatched seq e :: chosen.enum.map (fun p => drRow (seq + 1 + p.1) e p.2),
   seq + 1 + chosen.length)

/-- Modelled from the spec (§4.4 Row Emitter, Unmatched case): a single CR row
with status Unmatched and no DR rows. -/
def emitUnmatched (seq : Nat) (e : LedgerEntry) : List OutputRow × Nat :=
  ([crRowUnmatched seq e], seq + 1)

/-- Modelled from the spec (§4.5): the driver state — remaining (unconsumed)
transactions, accumulated results and rows, next sequence number, summary. -/
structure RunState where
  avail : List RawTransaction
  results : List MatchResult
  rows : List OutputRow
  nextSeq : Nat
  matchedCount : Nat
  unmatchedCount : Nat
  totalMatchedAmount : Int

/-- Modelled from the spec (§4.5): consuming a matched subset removes every
transaction whose identifier was chosen from the available pool. -/
def consume (avail chosen : List RawTransaction) : List RawTransaction :=
  avail.filter (fun a => !(chosen.any (fun c => c.id == a.id)))

/-- Modelled from the spec (§4.5 Reconciliation Driver): process one ledger
entry — group, match, tie-break, emit — and thread the global consumption
state. Empty groups and absent covers route to Unmatched. -/
def processEntry (s : RunState) (e : LedgerEntry) : RunState :=
  let group := keyGrouper s.avail e
  match tieBreakResolver (subsetSumMatcher group e.debitAmount) with
  | some chosen =>
    let em := emitMatched s.nextSeq e chosen
    { avail := consume s.avail chosen,
      results := s.results ++ [MatchResult.matched e chosen],
      rows := s.rows ++ em.1,
      nextSeq := em.2,
      matchedCount := s.matchedCount + 1,
      unmatchedCount := s.unmatchedCount,
      totalMatchedAmount := s.totalMatchedAmount + e.debitAmount }
  | none =>
    let em := emitUnmatched s.nextSeq e
    { avail := s.avail,
      results := s.results ++ [MatchResult.unmatched e group.length],
      rows := s.rows ++ em.1,
      nextSeq := em.2,
      matchedCount := s.matchedCount,
      unmatchedCount := s.unmatchedCount + 1,
      totalMatchedAmount := s.totalMatchedAmount }

/-- The initial driver state over the full transaction set. -/
def initState (txns : List RawTransaction) : RunState :=
  { avail := txns, results := [], rows := [], nextSeq := 1,
    matchedCount := 0, unmatchedCount := 0, totalMatchedAmount := 0 }

/-- Run the driver over a list of ledger entries from a given state. -/
def runFrom (s : RunState) (entries : List LedgerEntry) : RunState :=
  entries.foldl processEntry s

/-- Modelled from the spec (§4.5): the whole engine run. -/
def runEngine (txns : List RawTransaction) (entries : List LedgerEntry) :
    RunState :=
  runFrom (initState txns) entries

/-- The ledger entry a result is about. -/
def resultEntry : MatchResult → LedgerEntry
  | .matched e _ => e
  | .unmatched e _ => e

/-- The identifiers consumed by a result (empty for Unmatched). -/
def chosenIds : MatchResult → List String
  | .matched _ chosen => chosen.map (fun t => t.id)
  | .unmatched _ _ => []

/-- Two results share no consumed transaction identifier. -/
def DisjointIds (r1 r2 : MatchResult) : Prop :=
  ∀ i ∈ chosenIds r1, i ∉ chosenIds r2

/-- A typed spreadsheet cell, as a pandas dataframe column holds typed
values: text or an integer number (amounts in minor currency units). -/
inductive Cell where
  | str (s : String)
  | int (n : Int)
deriving DecidableEq

/-- One parsed spreadsheet row: column name to cell value. -/
abbrev Row := List (String × Cell)

/-- One sheet of tabular data. -/
abbrev Table := List Row

/-- Read a required text column from a row; a missing column or a non-text
cell is a structural input error. -/
def getStr (r : Row) (c : String) : Except String String :=
  match r.lookup c with
  | some (Cell.str v) => Except.ok v
  | some (Cell.int _) => Except.error ("wrong type in column " ++ c)
  | none => Except.error ("missing required column " ++ c)

/-- Read a required integer column from a row; a missing column or a
non-integer cell is a structural input error. -/
def getInt (r : Row) (c : String) : Except String Int :=
  match r.lookup c with
  | some (Cell.int v) => Except.ok v
  | some (Cell.str _) => Except.error ("wrong type in column " ++ c)
  | none => Except.error ("missing required column " ++ c)

/-- Modelled from the spec (§6, §7a): parse one EDW row into a RawTransaction;
fails exactly on a missing required column or a wrong-typed cell. -/
def parseTxnRow (r : Row) : Except String RawTransaction := do
  let i ← getStr r ("id")
  let acct ← getInt r ("account")
  let code ← getStr r ("code")
  let date ← getStr r ("date")
  let amt ← getInt r ("amount")
  let rc ← getStr r ("refCode")
  let ds ← getStr r ("description")
  Except.ok { id := i, account := acct, code := code, date := date,
              amount := amt, refCode := rc, description := ds }

/-- Modelled from the spec (§6, §7a): parse one Journal row into a
LedgerEntry; fails exactly on a missing required column or a wrong-typed
cell. -/
def parseEntryRow (r : Row) : Except String LedgerEntry := do
  let acct ← getInt r ("account")
  let code ← getStr r ("code")
  let date ← getStr r ("date")
  let damt ← getInt r ("debitAmount")
  let ds ← getStr r ("description")
  let gl ← getStr r ("glCode")
  Except.ok { account := acct, code := code, date := date,
              debitAmount := damt, description := ds, glCode := gl }

/-- Parse the whole EDW table, failing on the first structural error. -/
def parseTxns : List Row → Except String (List RawTransaction)
  | [] => Except.ok []
  | r :: rs =>
    match parseTxnRow r, parseTxns rs with
    | Except.ok t, Except.ok ts => Except.ok (t :: ts)
    | Except.error msg, _ => Except.error msg
    | _, Except.error msg => Except.error msg

/-- Parse the whole Journal table, failing on the first structural error. -/
def parseEntries : List Row → Except String (List LedgerEntry)
  | [] => Except.ok []
  | r :: rs =>
    match parseEntryRow r, parseEntries rs with
    | Except.ok e, Except.ok es => Except.ok (e :: es)
    | Except.error msg, _ => Except.error msg
    | _, Except.error msg => Except.error msg

/-- Whether a fallible step succeeded. -/
def exceptOk {α : Type} : Except String α → Bool
  | Except.ok _ => true
  | Except.error _ => false

/-- Modelled from the spec (§4.5, §7): the whole run — structural validation
of both input tables, then the engine; only a structural input error aborts,
and an aborted run carries no output rows at all. -/
def runApp (edw journal : List Row) : Except String RunState :=
  match parseTxns edw with
  | Except.error msg => Except.error msg
  | Except.ok txns =>
    match parseEntries journal with
    | Except.error msg => Except.error msg
    | Except.ok entries => Except.ok (runEngine txns entries)

/-- Embeds the secret store of src/app.py: the optional `openai` section
(which in turn optionally holds `api_key`) and the optional top-level
`OPENAI_API_KEY`. -/
structure Secrets where
  openai : Option (Option String)
  OPENAI_API_KEY : Option String

/-- Embeds src/app.py lines 23-30 (`get_openai_api_key`): return
`st.secrets["openai"]["api_key"]` when the section and its key both exist,
else fall back to `st.secrets["OPENAI_API_KEY"]`, else stop (`none`). -/
def get_openai_api_key (s : Secrets) : Option String :=
  match s.openai with
  | some (some k) => some k
  | _ => s.OPENAI_API_KEY

/-- Embeds src/app.py line 102: the completion client is constructed from
`st.secrets["openai"]["api_key"]` alone — a direct two-level subscript that
raises (`none`) unless the `openai` section exists and holds `api_key`. -/
def clientApiKey (s : Secrets) : Option String :=
  match s.openai with
  | some (some k) => some k
  | _ => none

/-- Embeds the control flow of src/app.py around the key check (line 32) and
the API call (lines 100-112): a failed key check stops the script before the
call; a failed client construction raises, is caught, and stops with no
output; only a successful call proceeds. -/
def runWithSecrets (s : Secrets) : Option String :=
  match get_openai_api_key s with
  | none => none
  | some _ =>
    match clientApiKey s with
    | none => none
    | some k => some k

/-- Embeds src/app.py lines 147-152: the output workbook holds the parsed
reconciliation table plus the EDW and Journal sheets. -/
structure Workbook where
  reconciliation : Table
  edw : Table
  journal : Table
deriving DecidableEq

/-- Embeds src/app.py lines 117-152: after the model response is parsed
(`none` models every stop path — no CSV block found or CSV parse failure),
the download workbook is built from the parsed reconciliation table and the
two dataframes read at lines 49-50, which are never reassigned in between. -/
def appDownload (edw_df journal_df : Table) (recon_df : Option Table) :
    Option Workbook :=
  match recon_df with
  | none => none
  | some r =>
    some { reconciliation := r, edw := edw_df, journal := journal_df }

/-- Concrete transaction for the spec's Scenario A. -/
def t1A : RawTransaction :=
  { id := "T1", account := 100, code := "42", date := "2024-01-05",
    amount := -1000, refCode := "R1", description := "edw txn 1" }

/-- Concrete transaction for the spec's Scenario A. -/
def t2A : RawTransaction :=
  { id := "T2", account := 100, code := "42", date := "2024-01-05",
    amount := -500, refCode := "R2", description := "edw txn 2" }

/-- Concrete single-transaction cover for the spec's Scenario C. -/
def t3A : RawTransaction :=
  { id := "T3", account := 100, code := "42", date := "2024-01-05",
    amount := -1500, refCode := "R3", description := "edw txn 3" }

/-- Concrete transaction with a different account, the spec's Scenario D. -/
def tD : RawTransaction :=
  { id := "T5", account := 999, code := "42", date := "2024-01-05",
    amount := -1500, refCode := "R5", description := "edw txn other account" }

/-- Concrete ledger entry used by the spec's scenarios. -/
def eA : LedgerEntry :=
  { account := 100, code := "42", date := "2024-01-05",
    debitAmount := 1500, description := "ledger entry", glCode := "GL1" }

/-- A concrete well-formed EDW row for closed witnesses. -/
def edwRowW : Row :=
  [("id", Cell.str ("T1")), ("account", Cell.int 100),
   ("code", Cell.str ("42")), ("date", Cell.str ("2024-01-05")),
   ("amount", Cell.int (-1000)), ("refCode", Cell.str ("R1")),
   ("description", Cell.str ("edw txn 1"))]

/-- A concrete well-formed Journal row for closed witnesses. -/
def journalRowW : Row :=
  [("account", Cell.int 100), ("code", Cell.str ("42")),
   ("date", Cell.str ("2024-01-05")), ("debitAmount", Cell.int 1500),
   ("description", Cell.str ("ledger entry")), ("glCode", Cell.str ("GL1"))]


/-- The run-wide invariant maintained by the driver: the available pool stays
inside the original transaction set; every matched result is a non-empty exact
cover drawn from the original set whose identifiers are gone from the pool;
and the consumed identifier sets of distinct results are pairwise disjoint. -/
def EngineInv (txns : List RawTransaction) (s : RunState) : Prop :=
  (∀ t ∈ s.avail, t ∈ txns) ∧
  (∀ e chosen, MatchResult.matched e chosen ∈ s.results →
      chosen ≠ [] ∧ absSum chosen = e.debitAmount ∧
      (∀ t ∈ chosen, t ∈ txns) ∧
      (∀ t ∈ chosen, ∀ a ∈ s.avail, a.id ≠ t.id)) ∧
  s.results.Pairwise DisjointIds

theorem mem_allSubsets_sub {s l : List RawTransaction} (h : s ∈ allSubsets l) :
    ∀ x ∈ s, x ∈ l := by
  induction l generalizing s with
  | nil =>
    simp only [allSubsets, List.mem_singleton] at h
    subst h
    intro x hx
    simp at hx
  | cons t ts ih =>
    simp only [allSubsets, List.mem_append, List.mem_map] at h
    rcases h with ⟨u, hu, rfl⟩ | h
    · intro x hx
      rcases List.mem_cons.mp hx with rfl | hx
      · exact List.mem_cons_self x ts
      · exact List.mem_cons_of_mem t (ih hu x hx)
    · intro x hx
      exact List.mem_cons_of_mem t (ih h x hx)

theorem subsetSumMatcher_spec {group : List RawTransaction} {target : Int}
    {chosen : List RawTransaction} (h : chosen ∈ subsetSumMatcher group target) :
    chosen ≠ [] ∧ absSum chosen = target ∧ ∀ x ∈ chosen, x ∈ group := by
  rcases List.mem_filter.mp h with ⟨hmem, hcond⟩
  rw [Bool.and_eq_true, Bool.not_eq_true'] at hcond
  rcases hcond with ⟨hne, hsum⟩
  refine ⟨?_, beq_iff_eq.mp hsum, mem_allSubsets_sub hmem⟩
  intro hnil
  subst hnil
  simp at hne

theorem lexLt_irrefl : ∀ a : List String, lexLt a a = false := by
  intro a
  induction a with
  | nil => rfl
  | cons x xs ih => simp [lexLt, ih]

theorem lexLt_trans : ∀ a b c : List String,
    lexLt a b = true → lexLt b c = true → lexLt a c = true := by
  intro a
  induction a with
  | nil =>
    intro b c hab hbc
    cases b with
    | nil => exact hbc
    | cons y ys =>
      cases c with
      | nil => simp [lexLt] at hbc
      | cons z zs => simp [lexLt]
  | cons x xs ih =>
    intro b c hab hbc
    cases b with
    | nil => simp [lexLt] at hab
    | cons y ys =>
      cases c with
      | nil => simp [lexLt] at hbc
      | cons z zs =>
        simp only [lexLt, Bool.or_eq_true, Bool.and_eq_true, decide_eq_true_eq,
          beq_iff_eq] at hab hbc ⊢
        rcases hab with h1 | ⟨rfl, h2⟩
        · rcases hbc with h3 | ⟨rfl, h4⟩
          · exact Or.inl (lt_trans h1 h3)
          · exact Or.inl h1
        · rcases hbc with h3 | ⟨rfl, h4⟩
          · exact Or.inl h3
          · exact Or.inr ⟨rfl, ih ys zs h2 h4⟩

theorem lexLt_trichot : ∀ a b : List String,
    lexLt a b = true ∨ a = b ∨ lexLt b a = true := by
  intro a
  induction a with
  | nil =>
    intro b
    cases b with
    | nil => exact Or.inr (Or.inl rfl)
    | cons y ys => exact Or.inl (by simp [lexLt])
  | cons x xs ih =>
    intro b
    cases b with
    | nil => exact Or.inr (Or.inr (by simp [lexLt]))
    | cons y ys =>
      rcases lt_trichotomy x y with h | rfl | h
      · exact Or.inl (by simp [lexLt, h])
      · rcases ih ys with h2 | rfl | h2
        · exact Or.inl (by simp [lexLt, h2])
        · exact Or.inr (Or.inl rfl)
        · exact Or.inr (Or.inr (by simp [lexLt, h2]))
      · exact Or.inr (Or.inr (by simp [lexLt, h]))

theorem better_irrefl (a : List RawTransaction) : better a a = false := by
  simp [better, lexLt_irrefl]

theorem better_trans {a b c : List RawTransaction}
    (h1 : better a b = true) (h2 : better b c = true) : better a c = true := by
  simp only [better, Bool.or_eq_true, Bool.and_eq_true, decide_eq_true_eq,
    beq_iff_eq] at h1 h2 ⊢
  rcases h1 with h1 | ⟨e1, l1⟩
  · rcases h2 with h2 | ⟨e2, l2⟩
    · exact Or.inl (lt_trans h1 h2)
    · exact Or.inl (lt_of_lt_of_eq h1 e2)
  · rcases h2 with h2 | ⟨e2, l2⟩
    · exact Or.inl (lt_of_eq_of_lt e1 h2)
    · exact Or.inr ⟨e1.trans e2, lexLt_trans _ _ _ l1 l2⟩

theorem better_false_elim {a b : List RawTransaction} (h : better a b = false) :
    b.length ≤ a.length ∧
      (a.length = b.length → lexLt (idSeq a) (idSeq b) = false) := by
  have h' : ¬ better a b = true := by
    intro hc
    rw [h] at hc
    exact Bool.false_ne_true hc
  simp only [better, Bool.or_eq_true, Bool.and_eq_true, decide_eq_true_eq,
    beq_iff_eq, not_or, not_and] at h'
  rcases h' with ⟨hlt, himp⟩
  refine ⟨Nat.le_of_not_lt hlt, fun he => ?_⟩
  have := himp he
  cases hx : lexLt (idSeq a) (idSeq b) with
  | false => rfl
  | true => exact absurd hx this

theorem better_neg_trans {a b c : List RawTransaction}
    (h1 : better a b = false) (h2 : better b c = false) : better a c = false := by
  rcases better_false_elim h1 with ⟨hba, hab⟩
  rcases better_false_elim h2 with ⟨hcb, hbc⟩
  cases hac : better a c with
  | false => rfl
  | true =>
    exfalso
    simp only [better, Bool.or_eq_true, Bool.and_eq_true, decide_eq_true_eq,
      beq_iff_eq] at hac
    rcases hac with hlt | ⟨heq, hlex⟩
    · omega
    · have e1 : a.length = b.length := by omega
      have e2 : b.length = c.length := by omega
      have nab : lexLt (idSeq a) (idSeq b) = false := hab e1
      have nbc : lexLt (idSeq b) (idSeq c) = false := hbc e2
      rcases lexLt_trichot (idSeq a) (idSeq b) with h | hEq1 | h
      · rw [h] at nab
        simp at nab
      · rcases lexLt_trichot (idSeq b) (idSeq c) with h2 | hEq2 | h2
        · rw [h2] at nbc
          simp at nbc
        · rw [hEq1, hEq2, lexLt_irrefl] at hlex
          simp at hlex
        · have hx : lexLt (idSeq a) (idSeq b) = true := lexLt_trans _ _ _ hlex h2
          rw [hEq1, lexLt_irrefl] at hx
          simp at hx
      · rcases lexLt_trichot (idSeq b) (idSeq c) with h2 | hEq2 | h2
        · rw [h2] at nbc
          simp at nbc
        · rw [← hEq2] at hlex
          rw [hlex] at nab
          simp at nab
        · have hx : lexLt (idSeq a) (idSeq b) = true := lexLt_trans _ _ _ hlex h2
          rw [hx] at nab
          simp at nab

theorem pickBest_nil (c : List RawTransaction) : pickBest c [] = c := rfl

theorem pickBest_cons (c x : List RawTransaction) (rest : List (List RawTransaction)) :
    pickBest c (x :: rest) = pickBest (if better x c then x else c) rest := rfl

theorem pickBest_mem : ∀ (cs : List (List RawTransaction)) (c : List RawTransaction),
    pickBest c cs ∈ c :: cs := by
  intro cs
  induction cs with
  | nil =>
    intro c
    rw [pickBest_nil]
    exact List.mem_cons_self c []
  | cons x rest ih =>
    intro c
    rw [pickBest_cons]
    cases h : better x c with
    | true =>
      rw [if_pos rfl]
      exact List.mem_cons_of_mem c (ih x)
    | false =>
      rw [if_neg (by simp)]
      rcases List.mem_cons.mp (ih c) with h2 | h2
      · rw [h2]
        exact List.mem_cons_self c (x :: rest)
      · exact List.mem_cons_of_mem c (List.mem_cons_of_mem x h2)

theorem pickBest_min : ∀ (cs : List (List RawTransaction)) (c x : List RawTransaction),
    x ∈ c :: cs → better x (pickBest c cs) = false := by
  intro cs
  induction cs with
  | nil =>
    intro c x hx
    rcases List.mem_cons.mp hx with rfl | h
    · rw [pickBest_nil]
      exact better_irrefl x
    · simp at h
  | cons y rest ih =>
    intro c x hx
    rw [pickBest_cons]
    cases h : better y c with
    | true =>
      rw [if_pos rfl]
      rcases List.mem_cons.mp hx with rfl | hx2
      · have hyM : better y (pickBest y rest) = false :=
          ih y y (List.mem_cons_self y rest)
        cases hcM : better x (pickBest y rest) with
        | false => rfl
        | true =>
          have := better_trans h hcM
          rw [this] at hyM
          simp at hyM
      · rcases List.mem_cons.mp hx2 with heq | hx3
        · rw [heq]
          exact ih y y (List.mem_cons_self y rest)
        · exact ih y x (List.mem_cons_of_mem y hx3)
    | false =>
      rw [if_neg (by simp)]
      rcases List.mem_cons.mp hx with heq | hx2
      · rw [heq]
        exact ih c c (List.mem_cons_self c rest)
      · rcases List.mem_cons.mp hx2 with heq | hx3
        · rw [heq]
          have hcM : better c (pickBest c rest) = false :=
            ih c c (List.mem_cons_self c rest)
          exact better_neg_trans h hcM
        · exact ih c x (List.mem_cons_of_mem c hx3)

theorem tieBreakResolver_spec {covers : List (List RawTransaction)}
    {c : List RawTransaction} (h : tieBreakResolver covers = some c) :
    c ∈ covers ∧ ∀ x ∈ covers, better x c = false := by
  cases covers with
  | nil => simp [tieBreakResolver] at h
  | cons c0 cs =>
    simp only [tieBreakResolver, Option.some.injEq] at h
    subst h
    exact ⟨pickBest_mem cs c0, fun x hx => pickBest_min cs c0 x hx⟩

theorem tieBreakResolver_some {covers : List (List RawTransaction)}
    (h : covers ≠ []) : ∃ c, tieBreakResolver covers = some c := by
  cases covers with
  | nil => exact absurd rfl h
  | cons c0 cs => exact ⟨pickBest c0 cs, rfl⟩

theorem keyGrouper_mem {txns : List RawTransaction} {e : LedgerEntry}
    {t : RawTransaction} :
    t ∈ keyGrouper txns e ↔
      t ∈ txns ∧ t.account = e.account ∧ t.code = e.code ∧ t.date = e.date := by
  simp [keyGrouper, List.mem_filter, Bool.and_eq_true, beq_iff_eq, and_assoc]

theorem keyGrouper_sub {txns : List RawTransaction} {e : LedgerEntry} :
    ∀ t ∈ keyGrouper txns e, t ∈ txns :=
  fun _ ht => (keyGrouper_mem.mp ht).1

theorem consume_sub {avail chosen : List RawTransaction} :
    ∀ a ∈ consume avail chosen, a ∈ avail :=
  fun _ ha => (List.mem_filter.mp ha).1

theorem consume_not_chosen {avail chosen : List RawTransaction}
    {a : RawTransaction} (ha : a ∈ consume avail chosen) :
    ∀ c ∈ chosen, c.id ≠ a.id := by
  rcases List.mem_filter.mp ha with ⟨_, hcond⟩
  rw [Bool.not_eq_true'] at hcond
  intro c hc heq
  have hx : chosen.any (fun c => c.id == a.id) = true :=
    List.any_eq_true.mpr ⟨c, hc, beq_iff_eq.mpr heq⟩
  rw [hx] at hcond
  simp at hcond

theorem processEntry_none {s : RunState} {e : LedgerEntry}
    (h : tieBreakResolver
        (subsetSumMatcher (keyGrouper s.avail e) e.debitAmount) = none) :
    processEntry s e =
      { avail := s.avail,
        results := s.results ++ [MatchResult.unmatched e (keyGrouper s.avail e).length],
        rows := s.rows ++ (emitUnmatched s.nextSeq e).1,
        nextSeq := (emitUnmatched s.nextSeq e).2,
        matchedCount := s.matchedCount,
        unmatchedCount := s.unmatchedCount + 1,
        totalMatchedAmount := s.totalMatchedAmount } := by
  simp only [processEntry, h]

theorem processEntry_some {s : RunState} {e : LedgerEntry}
    {chosen : List RawTransaction}
    (h : tieBreakResolver
        (subsetSumMatcher (keyGrouper s.avail e) e.debitAmount) = some chosen) :
    processEntry s e =
      { avail := consume s.avail chosen,
        results := s.results ++ [MatchResult.matched e chosen],
        rows := s.rows ++ (emitMatched s.nextSeq e chosen).1,
        nextSeq := (emitMatched s.nextSeq e chosen).2,
        matchedCount := s.matchedCount + 1,
        unmatchedCount := s.unmatchedCount,
        totalMatchedAmount := s.totalMatchedAmount + e.debitAmount } := by
  simp only [processEntry, h]

theorem processEntry_inv {txns : List RawTransaction} {s : RunState}
    {e : LedgerEntry} (hinv : EngineInv txns s) :
    EngineInv txns (processEntry s e) := by
  rcases hinv with ⟨hsub, hres, hpair⟩
  cases hopt : tieBreakResolver
      (subsetSumMatcher (keyGrouper s.avail e) e.debitAmount) with
  | none =>
    rw [processEntry_none hopt]
    refine ⟨hsub, ?_, ?_⟩
    · intro e' chosen' hmem
      rcases List.mem_append.mp hmem with h | h
      · exact hres e' chosen' h
      · simp at h
    · rw [List.pairwise_append]
      refine ⟨hpair, List.pairwise_singleton _ _, ?_⟩
      intro r1 h1 r2 h2
      rcases List.mem_singleton.mp h2 with rfl
      intro i hi
      simp [chosenIds]
  | some chosen =>
    rcases tieBreakResolver_spec hopt with ⟨hmemc, _⟩
    rcases subsetSumMatcher_spec hmemc with ⟨hne, hsum, hgrp⟩
    have hchosen_avail : ∀ t ∈ chosen, t ∈ s.avail :=
      fun t ht => keyGrouper_sub t (hgrp t ht)
    rw [processEntry_some hopt]
    refine ⟨?_, ?_, ?_⟩
    · intro t ht
      exact hsub t (consume_sub t ht)
    · intro e' chosen' hmem
      rcases List.mem_append.mp hmem with h | h
      · rcases hres e' chosen' h with ⟨h1, h2, h3, h4⟩
        exact ⟨h1, h2, h3, fun t ht a ha => h4 t ht a (consume_sub a ha)⟩
      · rcases List.mem_singleton.mp h with h
        injection h with he hc
        subst he
        subst hc
        refine ⟨hne, hsum, fun t ht => hsub t (hchosen_avail t ht), ?_⟩
        intro t ht a ha
        exact (consume_not_chosen ha t ht).symm
    · rw [List.pairwise_append]
      refine ⟨hpair, List.pairwise_singleton _ _, ?_⟩
      intro r1 h1 r2 h2
      rcases List.mem_singleton.mp h2 with rfl
      intro i hi hcontra
      cases r1 with
      | unmatched e1 n1 => simp [chosenIds] at hi
      | matched e1 ch1 =>
        simp only [chosenIds, List.mem_map] at hi hcontra
        rcases hi with ⟨t1, ht1, rfl⟩
        rcases hcontra with ⟨t2, ht2, heq⟩
        rcases hres e1 ch1 h1 with ⟨_, _, _, h4⟩
        exact h4 t1 ht1 t2 (hchosen_avail t2 ht2) heq

theorem runFrom_inv {txns : List RawTransaction} :
    ∀ (entries : List LedgerEntry) (s : RunState), EngineInv txns s →
      EngineInv txns (runFrom s entries) := by
  intro entries
  induction entries with
  | nil => intro s h; exact h
  | cons e rest ih =>
    intro s h
    rw [runFrom, List.foldl_cons]
    exact ih (processEntry s e) (processEntry_inv h)

theorem initState_inv (txns : List RawTransaction) :
    EngineInv txns (initState txns) := by
  refine ⟨fun t ht => ht, ?_, ?_⟩
  · intro e chosen hmem
    simp [initState] at hmem
  · simp [initState]

theorem runEngine_inv (txns : List RawTransaction) (entries : List LedgerEntry) :
    EngineInv txns (runEngine txns entries) :=
  runFrom_inv entries (initState txns) (initState_inv txns)

theorem processEntry_results_map (s : RunState) (e : LedgerEntry) :
    (processEntry s e).results.map resultEntry =
      s.results.map resultEntry ++ [e] := by
  cases hopt : tieBreakResolver
      (subsetSumMatcher (keyGrouper s.avail e) e.debitAmount) with
  | none => rw [processEntry_none hopt]; simp [resultEntry]
  | some chosen => rw [processEntry_some hopt]; simp [resultEntry]

theorem runFrom_results_map :
    ∀ (entries : List LedgerEntry) (s : RunState),
      (runFrom s entries).results.map resultEntry =
        s.results.map resultEntry ++ entries := by
  intro entries
  induction entries with
  | nil => intro s; simp [runFrom]
  | cons e rest ih =>
    intro s
    rw [runFrom, List.foldl_cons]
    have : List.foldl processEntry (processEntry s e) rest =
        runFrom (processEntry s e) rest := rfl
    rw [this, ih (processEntry s e), processEntry_results_map]
    simp

theorem runEngine_results_map (txns : List RawTransaction)
    (entries : List LedgerEntry) :
    (runEngine txns entries).results.map resultEntry = entries := by
  rw [runEngine, runFrom_results_map]
  simp [initState]

theorem processEntry_counts (s : RunState) (e : LedgerEntry) :
    (processEntry s e).matchedCount + (processEntry s e).unmatchedCount =
      s.matchedCount + s.unmatchedCount + 1 := by
  cases hopt : tieBreakResolver
      (subsetSumMatcher (keyGrouper s.avail e) e.debitAmount) with
  | none =>
    rw [processEntry_none hopt]
    show s.matchedCount + (s.unmatchedCount + 1) =
      s.matchedCount + s.unmatchedCount + 1
    omega
  | some chosen =>
    rw [processEntry_some hopt]
    show (s.matchedCount + 1) + s.unmatchedCount =
      s.matchedCount + s.unmatchedCount + 1
    omega

theorem runFrom_counts :
    ∀ (entries : List LedgerEntry) (s : RunState),
      (runFrom s entries).matchedCount + (runFrom s entries).unmatchedCount =
        s.matchedCount + s.unmatchedCount + entries.length := by
  intro entries
  induction entries with
  | nil => intro s; simp [runFrom]
  | cons e rest ih =>
    intro s
    rw [runFrom, List.foldl_cons]
    have h1 : List.foldl processEntry (processEntry s e) rest =
        runFrom (processEntry s e) rest := rfl
    rw [h1, ih (processEntry s e)]
    have h2 := processEntry_counts s e
    simp only [List.length_cons]
    omega

theorem emitMatched_dr_filter (k : Nat) (e : LedgerEntry)
    (chosen : List RawTransaction) :
    (emitMatched k e chosen).1.filter (fun r => r.side == "DR") =
      chosen.enum.map (fun p => drRow (k + 1 + p.1) e p.2) := by
  simp only [emitMatched]
  rw [List.filter_cons]
  have hcr : ((crRowMatched k e).side == "DR") = false := by rfl
  rw [hcr]
  simp only [if_neg Bool.false_ne_true]
  apply List.filter_eq_self.mpr
  intro r hr
  rcases List.mem_map.mp hr with ⟨p, hp, rfl⟩
  rfl

theorem emitMatched_cr_filter (k : Nat) (e : LedgerEntry)
    (chosen : List RawTransaction) :
    (emitMatched k e chosen).1.filter (fun r => r.side == "CR") =
      [crRowMatched k e] := by
  simp only [emitMatched]
  rw [List.filter_cons]
  have hcr : ((crRowMatched k e).side == "CR") = true := by rfl
  rw [hcr]
  have hdr : (chosen.enum.map (fun p => drRow (k + 1 + p.1) e p.2)).filter
      (fun r => r.side == "CR") = [] := by
    apply List.filter_eq_nil_iff.mpr
    intro r hr
    rcases List.mem_map.mp hr with ⟨p, hp, rfl⟩
    exact Bool.false_ne_true
  simp [hdr]

theorem emitMatched_dr_amounts (k : Nat) (e : LedgerEntry)
    (chosen : List RawTransaction) :
    ((emitMatched k e chosen).1.filter (fun r => r.side == "DR")).map
        (fun r => r.amount) = chosen.map (fun t => t.amount) := by
  rw [emitMatched_dr_filter, List.map_map]
  have h1 : ((fun r : OutputRow => r.amount) ∘
      (fun p : Nat × RawTransaction => drRow (k + 1 + p.1) e p.2)) =
      ((fun t : RawTransaction => t.amount) ∘ Prod.snd) := rfl
  rw [h1, ← List.map_map, List.enum_map_snd]

theorem emitMatched_cr_amounts (k : Nat) (e : LedgerEntry)
    (chosen : List RawTransaction) :
    ((emitMatched k e chosen).1.filter (fun r => r.side == "CR")).map
        (fun r => r.amount) = [e.debitAmount] := by
  rw [emitMatched_cr_filter]
  rfl

theorem emitMatched_dr_abs_sum (k : Nat) (e : LedgerEntry)
    (chosen : List RawTransaction) :
    (((emitMatched k e chosen).1.filter (fun r => r.side == "DR")).map
        (fun r => (r.amount.natAbs : Int))).sum = absSum chosen := by
  have h1 : ((emitMatched k e chosen).1.filter (fun r => r.side == "DR")).map
      (fun r => (r.amount.natAbs : Int)) =
      (((emitMatched k e chosen).1.filter (fun r => r.side == "DR")).map
        (fun r => r.amount)).map (fun a : Int => (a.natAbs : Int)) := by
    rw [List.map_map]
    rfl
  rw [h1, emitMatched_dr_amounts, List.map_map]
  rfl

theorem emitMatched_cr_count (k : Nat) (e : LedgerEntry)
    (chosen : List RawTransaction) :
    (emitMatched k e chosen).1.countP (fun r => r.side == "CR") = 1 := by
  have h := emitMatched_cr_filter k e chosen
  have hc : (emitMatched k e chosen).1.countP (fun r => r.side == "CR") =
      ((emitMatched k e chosen).1.filter (fun r => r.side == "CR")).length := by
    rw [List.countP_eq_length_filter]
  rw [hc, h]
  rfl

theorem emitMatched_dr_count (k : Nat) (e : LedgerEntry)
    (chosen : List RawTransaction) :
    (emitMatched k e chosen).1.countP (fun r => r.side == "DR") =
      chosen.length := by
  have h := emitMatched_dr_filter k e chosen
  have hc : (emitMatched k e chosen).1.countP (fun r => r.side == "DR") =
      ((emitMatched k e chosen).1.filter (fun r => r.side == "DR")).length := by
    rw [List.countP_eq_length_filter]
  rw [hc, h, List.length_map, List.enum_length]

theorem emitUnmatched_cr_count (k : Nat) (e : LedgerEntry) :
    (emitUnmatched k e).1.countP (fun r => r.side == "CR") = 1 := rfl

theorem emitUnmatched_dr_count (k : Nat) (e : LedgerEntry) :
    (emitUnmatched k e).1.countP (fun r => r.side == "DR") = 0 := rfl

theorem processEntry_cr_count (s : RunState) (e : LedgerEntry) :
    (processEntry s e).rows.countP (fun r => r.side == "CR") =
      s.rows.countP (fun r => r.side == "CR") + 1 := by
  cases hopt : tieBreakResolver
      (subsetSumMatcher (keyGrouper s.avail e) e.debitAmount) with
  | none =>
    rw [processEntry_none hopt]
    show (s.rows ++ (emitUnmatched s.nextSeq e).1).countP _ = _
    rw [List.countP_append, emitUnmatched_cr_count]
  | some chosen =>
    rw [processEntry_some hopt]
    show (s.rows ++ (emitMatched s.nextSeq e chosen).1).countP _ = _
    rw [List.countP_append, emitMatched_cr_count]

theorem runFrom_cr_count :
    ∀ (entries : List LedgerEntry) (s : RunState),
      (runFrom s entries).rows.countP (fun r => r.side == "CR") =
        s.rows.countP (fun r => r.side == "CR") + entries.length := by
  intro entries
  induction entries with
  | nil => intro s; simp [runFrom]
  | cons e rest ih =>
    intro s
    rw [runFrom, List.foldl_cons]
    have h1 : List.foldl processEntry (processEntry s e) rest =
        runFrom (processEntry s e) rest := rfl
    rw [h1, ih (processEntry s e), processEntry_cr_count]
    simp only [List.length_cons]
    omega

/-- C1: for every Matched result produced by a run (on inputs satisfying the
data model: negative raw-transaction amounts and positive ledger debits), the
sum of the absolute values of the chosen transactions' amounts — equivalently
of its DR rows' amounts — equals the entry's debit amount exactly in integer
minor currency units; every DR row amount is a chosen transaction's original
negative amount and the CR row amount is the positive debit amount. -/
theorem c1_matched_balance (txns : List RawTransaction)
    (entries : List LedgerEntry)
    (h1 : ∀ t ∈ txns, t.amount < 0)
    (h2 : ∀ e ∈ entries, 0 < e.debitAmount) :
    ∀ e chosen,
      MatchResult.matched e chosen ∈ (runEngine txns entries).results →
      absSum chosen = e.debitAmount ∧ 0 < e.debitAmount ∧
      (∀ t ∈ chosen, t.amount < 0) ∧
      ∀ k, ((emitMatched k e chosen).1.filter (fun r => r.side == "DR")).map
              (fun r => r.amount) = chosen.map (fun t => t.amount) ∧
           (((emitMatched k e chosen).1.filter (fun r => r.side == "DR")).map
              (fun r => (r.amount.natAbs : Int))).sum = e.debitAmount ∧
           ((emitMatched k e chosen).1.filter (fun r => r.side == "CR")).map
              (fun r => r.amount) = [e.debitAmount] := by
  intro e chosen hmem
  rcases runEngine_inv txns entries with ⟨_, hres, _⟩
  rcases hres e chosen hmem with ⟨hne, hsum, hsub, _⟩
  have he : e ∈ entries := by
    rw [← runEngine_results_map txns entries]
    exact List.mem_map.mpr ⟨MatchResult.matched e chosen, hmem, rfl⟩
  refine ⟨hsum, h2 e he, fun t ht => h1 t (hsub t ht), ?_⟩
  intro k
  refine ⟨emitMatched_dr_amounts k e chosen, ?_,
    emitMatched_cr_amounts k e chosen⟩
  rw [emitMatched_dr_abs_sum, hsum]

/-- Witness for C1 at the spec's Scenario A. -/
theorem c1_matched_balance_witness :
    absSum [t1A, t2A] = eA.debitAmount :=
  (c1_matched_balance [t1A, t2A] [eA] (by decide) (by decide) eA [t1A, t2A]
    (by decide)).1

/-- C2: across one whole run, no raw-transaction identifier is consumed by
more than one Matched result — the results are pairwise disjoint in consumed
identifiers, globally over all ledger entries. -/
theorem c2_global_consumption (txns : List RawTransaction)
    (entries : List LedgerEntry) :
    (runEngine txns entries).results.Pairwise DisjointIds :=
  (runEngine_inv txns entries).2.2

/-- C3: the engine is deterministic — two runs on identical input tables
yield identical output row sequences. -/
theorem c3_deterministic (txns1 txns2 : List RawTransaction)
    (entries1 entries2 : List LedgerEntry)
    (ht : txns1 = txns2) (he : entries1 = entries2) :
    (runEngine txns1 entries1).rows = (runEngine txns2 entries2).rows := by
  rw [ht, he]

/-- Witness for C3 at the spec's Scenario A. -/
theorem c3_deterministic_witness :
    (runEngine [t1A, t2A] [eA]).rows = (runEngine [t1A, t2A] [eA]).rows :=
  c3_deterministic [t1A, t2A] [t1A, t2A] [eA] [eA] rfl rfl

/-- C4: whenever at least one exact cover exists, the Tie-Break Resolver
selects exactly one, first minimizing the number of transactions and then,
among equal sizes, taking the lexicographically smallest identifier
sequence; in particular a single-transaction cover beats any larger one. -/
theorem c4_tie_break (covers : List (List RawTransaction)) (h : covers ≠ []) :
    ∃ c, tieBreakResolver covers = some c ∧ c ∈ covers ∧
      ∀ x ∈ covers, c.length ≤ x.length ∧
        (c.length = x.length →
          idSeq c = idSeq x ∨ lexLt (idSeq c) (idSeq x) = true) := by
  rcases tieBreakResolver_some h with ⟨c, hc⟩
  rcases tieBreakResolver_spec hc with ⟨hmem, hmin⟩
  refine ⟨c, hc, hmem, ?_⟩
  intro x hx
  rcases better_false_elim (hmin x hx) with ⟨hlen, hlex⟩
  refine ⟨hlen, fun he => ?_⟩
  have hnx : lexLt (idSeq x) (idSeq c) = false := hlex he.symm
  rcases lexLt_trichot (idSeq c) (idSeq x) with h2 | h2 | h2
  · exact Or.inr h2
  · exact Or.inl h2
  · rw [h2] at hnx
    simp at hnx

/-- Witness for C4 at the spec's Scenario C: covers of sizes two and one. -/
theorem c4_tie_break_witness :
    ∃ c, tieBreakResolver [[t1A, t2A], [t3A]] = some c ∧
      c ∈ [[t1A, t2A], [t3A]] ∧
      ∀ x ∈ [[t1A, t2A], [t3A]], c.length ≤ x.length ∧
        (c.length = x.length →
          idSeq c = idSeq x ∨ lexLt (idSeq c) (idSeq x) = true) :=
  c4_tie_break [[t1A, t2A], [t3A]] (by decide)

/-- C5: the Key Grouper returns exactly the transactions whose account,
code, and date equal the entry's keys (exact equality — a transaction
differing in any key is excluded), and an empty group is not an error: the
driver routes the entry to Unmatched with zero candidates considered. -/
theorem c5_key_grouper :
    (∀ (txns : List RawTransaction) (e : LedgerEntry) (t : RawTransaction),
        t ∈ keyGrouper txns e ↔
          t ∈ txns ∧ t.account = e.account ∧ t.code = e.code ∧
            t.date = e.date) ∧
    (∀ (s : RunState) (e : LedgerEntry), keyGrouper s.avail e = [] →
        (processEntry s e).results =
          s.results ++ [MatchResult.unmatched e 0]) := by
  constructor
  · intro txns e t
    exact keyGrouper_mem
  · intro s e hempty
    have hnone : tieBreakResolver
        (subsetSumMatcher (keyGrouper s.avail e) e.debitAmount) = none := by
      rw [hempty]
      rfl
    rw [processEntry_none hnone]
    have hlen : (keyGrouper s.avail e).length = 0 := by
      rw [hempty]
      rfl
    rw [hlen]

/-- Witness for C5 at the spec's Scenario D: a transaction with a different
account number is excluded, and the entry routes to Unmatched. -/
theorem c5_key_grouper_witness :
    (tD ∈ keyGrouper [tD] eA ↔
      tD ∈ [tD] ∧ tD.account = eA.account ∧ tD.code = eA.code ∧
        tD.date = eA.date) ∧
    (processEntry (initState [tD]) eA).results =
      (initState [tD]).results ++ [MatchResult.unmatched eA 0] :=
  ⟨c5_key_grouper.1 [tD] eA tD,
   c5_key_grouper.2 (initState [tD]) eA (by decide)⟩

/-- C6: the Row Emitter emits exactly one CR row plus one DR row per chosen
transaction (so N ≥ 1 DR rows for a non-empty cover) for a Matched result,
and for an Unmatched result exactly one CR row with status Unmatched and
zero DR rows — DR rows are never emitted without a match. -/
theorem c6_row_emitter (seq k : Nat) (e : LedgerEntry)
    (chosen : List RawTransaction) (h : chosen ≠ []) :
    (emitMatched seq e chosen).1.countP (fun r => r.side == "CR") = 1 ∧
    (emitMatched seq e chosen).1.countP (fun r => r.side == "DR") =
      chosen.length ∧
    1 ≤ (emitMatched seq e chosen).1.countP (fun r => r.side == "DR") ∧
    (emitUnmatched k e).1.countP (fun r => r.side == "CR") = 1 ∧
    (emitUnmatched k e).1.countP (fun r => r.side == "DR") = 0 ∧
    (emitUnmatched k e).1.countP (fun r => r.status == "Unmatched") = 1 := by
  refine ⟨emitMatched_cr_count seq e chosen,
    emitMatched_dr_count seq e chosen, ?_, emitUnmatched_cr_count k e,
    emitUnmatched_dr_count k e, rfl⟩
  rw [emitMatched_dr_count]
  cases chosen with
  | nil => exact absurd rfl h
  | cons a l => simp

/-- Witness for C6 at the spec's Scenario A. -/
theorem c6_row_emitter_witness :
    (emitMatched 1 eA [t1A, t2A]).1.countP (fun r => r.side == "CR") = 1 ∧
    (emitMatched 1 eA [t1A, t2A]).1.countP (fun r => r.side == "DR") =
      ([t1A, t2A] : List RawTransaction).length ∧
    1 ≤ (emitMatched 1 eA [t1A, t2A]).1.countP (fun r => r.side == "DR") ∧
    (emitUnmatched 4 eA).1.countP (fun r => r.side == "CR") = 1 ∧
    (emitUnmatched 4 eA).1.countP (fun r => r.side == "DR") = 0 ∧
    (emitUnmatched 4 eA).1.countP (fun r => r.status == "Unmatched") = 1 :=
  c6_row_emitter 1 4 eA [t1A, t2A] (by decide)

/-- C7: totality — every ledger entry appears in exactly one result, in
input order, the matched and unmatched counts add up to the number of
ledger entries, and each entry produces exactly one CR row. -/
theorem c7_totality (txns : List RawTransaction)
    (entries : List LedgerEntry) :
    (runEngine txns entries).results.map resultEntry = entries ∧
    (runEngine txns entries).matchedCount +
      (runEngine txns entries).unmatchedCount = entries.length ∧
    (runEngine txns entries).rows.countP (fun r => r.side == "CR") =
      entries.length := by
  refine ⟨runEngine_results_map txns entries, ?_, ?_⟩
  · rw [runEngine, runFrom_counts]
    simp [initState]
  · rw [runEngine, runFrom_cr_count]
    simp [initState]

/-- C8: only a structural input error (missing required column or
wrong-typed cell) aborts the run — and an aborted run carries no output
state at all — while structurally valid inputs always yield a completed run
in which every ledger entry was processed to a result, whatever the
non-fatal matching outcomes are. -/
theorem c8_error_handling (edw journal : List Row) :
    exceptOk (runApp edw journal) =
      (exceptOk (parseTxns edw) && exceptOk (parseEntries journal)) ∧
    (∀ txns entries, parseTxns edw = Except.ok txns →
        parseEntries journal = Except.ok entries →
        runApp edw journal = Except.ok (runEngine txns entries) ∧
        (runEngine txns entries).results.length = entries.length) := by
  constructor
  · cases h1 : parseTxns edw with
    | error msg => simp [runApp, h1, exceptOk]
    | ok txns =>
      cases h2 : parseEntries journal with
      | error msg => simp [runApp, h1, h2, exceptOk]
      | ok entries => simp [runApp, h1, h2, exceptOk]
  · intro txns entries h1 h2
    refine ⟨by simp [runApp, h1, h2], ?_⟩
    have hlen := congrArg List.length (runEngine_results_map txns entries)
    rw [List.length_map] at hlen
    exact hlen

/-- Witness for C8: structurally valid one-row inputs complete the run. -/
theorem c8_error_handling_witness :
    runApp [edwRowW] [journalRowW] = Except.ok (runEngine [t1A] [eA]) ∧
    (runEngine [t1A] [eA]).results.length =
      ([eA] : List LedgerEntry).length :=
  (c8_error_handling [edwRowW] [journalRowW]).2 [t1A] [eA] rfl rfl

/-- C9: a secrets configuration that provides only `OPENAI_API_KEY` (no
`openai` section, or one without `api_key`) passes the key check — the
compatibility getter returns the key — yet the completion client is
constructed from `st.secrets["openai"]["api_key"]` alone and fails, so the
run stops at the API-call step and produces no output. -/
theorem c9_secrets_mismatch (s : Secrets) (k : String)
    (h1 : s.openai = none ∨ s.openai = some none)
    (h2 : s.OPENAI_API_KEY = some k) :
    get_openai_api_key s = some k ∧ clientApiKey s = none ∧
      runWithSecrets s = none := by
  rcases h1 with h1 | h1 <;>
    simp [get_openai_api_key, clientApiKey, runWithSecrets, h1, h2]

/-- Witness for C9: cloud-style secrets with only `OPENAI_API_KEY` set. -/
theorem c9_secrets_mismatch_witness :
    get_openai_api_key
        { openai := none, OPENAI_API_KEY := some ("sk-test") } =
      some ("sk-test") ∧
    clientApiKey { openai := none, OPENAI_API_KEY := some ("sk-test") } =
      none ∧
    runWithSecrets { openai := none, OPENAI_API_KEY := some ("sk-test") } =
      none :=
  c9_secrets_mismatch _ _ (Or.inl rfl) rfl

/-- C10: whenever the run reaches the download step, the EDW and Journal
sheets of the output workbook are exactly the dataframes parsed from the
upload, unchanged; the reconciliation result is only added as a separate
sheet. -/
theorem c10_passthrough (edw_df journal_df : Table) (recon_df : Option Table)
    (wb : Workbook)
    (h : appDownload edw_df journal_df recon_df = some wb) :
    wb.edw = edw_df ∧ wb.journal = journal_df ∧
      ∃ r, recon_df = some r ∧ wb.reconciliation = r := by
  cases recon_df with
  | none => simp [appDownload] at h
  | some r =>
    simp only [appDownload, Option.some.injEq] at h
    subst h
    exact ⟨rfl, rfl, r, rfl, rfl⟩

/-- Witness for C10 on concrete one-row tables. -/
theorem c10_passthrough_witness :
    (Workbook.mk [journalRowW] [edwRowW] [journalRowW]).edw = [edwRowW] ∧
    (Workbook.mk [journalRowW] [edwRowW] [journalRowW]).journal =
      [journalRowW] ∧
    ∃ r, (some [journalRowW] : Option Table) = some r ∧
      (Workbook.mk [journalRowW] [edwRowW] [journalRowW]).reconciliation =
        r :=
  c10_passthrough [edwRowW] [journalRowW] (some [journalRowW])
    (Workbook.mk [journalRowW] [edwRowW] [journalRowW]) rfl
